import Mathlib

/-!
Shallow embedding of the core of `fill_report.py` (DailyReportTool):
the name resolver `match_rows`, the window aggregator `agg_values`, the
diagnostic candidate ranker `miss_candidates`, and the merged-region-aware
template writer `_safe_write_cell` (here `safe_write_cell`).

Modelling conventions:
* A pandas long-form row is `Row`: `time : Option ℤ` (a missing timestamp is
  `none`, modelling `NaT`), `name : String` (the `Name` column, already a
  string after `astype(str)`), `value : Option ℚ` (the outcome of the
  `pd.to_numeric(..., errors="coerce")` coercion; `none` models `NaN`, i.e.
  a coercion failure or a missing value).  Python floats are modelled by ℚ.
* A DataFrame is a `List Row` in row order; boolean-mask filters keep the
  order, as in pandas.
* Python string primitives are modelled by structurally recursive functions
  on the character data: `str.strip()` is `stripStr`, `str.upper()` is
  `upperStr`, `str.lower()` is `lowerStr` and `str.split()` is `splitWs`
  (split on whitespace runs, no empty tokens).
* `Series.str.contains(pat, case=False)` is modelled as case-insensitive
  literal substring containment (list infix of the lowered character data);
  pandas would read `pat` as a regular expression, which coincides with
  literal containment for metacharacter-free patterns.
* `df.sort_values(COL_TIME)` is modelled as a stable ascending insertion
  sort on the timestamp, matching the stable tie order pandas produces on
  small inputs.
* The openpyxl worksheet is `Ws`: a total cell map on `(row, col)`
  coordinates plus the list `merged_cells.ranges`; `Cell.merged` models
  whether `ws[addr]` materializes as a read-only `MergedCell`.  A1-style
  address strings are modelled by their parsed `(row, col)` coordinates.
-/

/-- One long-form record of the source table (`Time`/`Name`/`Value`). -/
structure Row where
  time : Option ℤ
  name : String
  value : Option ℚ
deriving DecidableEq

/-- `str.strip()` on character data: drop leading and trailing whitespace. -/
def stripChars (l : List Char) : List Char :=
  ((l.dropWhile Char.isWhitespace).reverse.dropWhile Char.isWhitespace).reverse

/-- `str.strip()`. -/
def stripStr (s : String) : String := ⟨stripChars s.data⟩

/-- `str.upper()` (ASCII case mapping, as in `Char.toUpper`). -/
def upperStr (s : String) : String := ⟨s.data.map Char.toUpper⟩

/-- `str.lower()` (ASCII case mapping, as in `Char.toLower`). -/
def lowerStr (s : String) : String := ⟨s.data.map Char.toLower⟩

/-- Worker for `str.split()`: scan the characters, accumulating the current
(reversed) token; whitespace ends a token, empty tokens are not produced. -/
def splitWsAux : List Char → List Char → List String
  | [], acc => if acc = [] then [] else [⟨acc.reverse⟩]
  | c :: cs, acc =>
    if c.isWhitespace then
      (if acc = [] then splitWsAux cs [] else ⟨acc.reverse⟩ :: splitWsAux cs [])
    else splitWsAux cs (c :: acc)

/-- `str.split()` with no argument: split on whitespace runs, dropping empty
tokens. -/
def splitWs (s : String) : List String := splitWsAux s.data []

/-- Case-insensitive literal substring test: the lowered needle occurs inside
the lowered haystack.  Models `needle.lower() in hay.lower()` and the
regex-free reading of `Series.str.contains(needle, case=False)`. -/
def containsCI (hay needle : String) : Prop :=
  (lowerStr needle).data <:+: (lowerStr hay).data

instance (hay needle : String) : Decidable (containsCI hay needle) :=
  inferInstanceAs (Decidable (_ <:+: _))

/-- The keyword list `[k for k in name.split() if k]` (the filter is a no-op
on top of `str.split()`, kept to mirror the source). -/
def splitKw (s : String) : List String :=
  (splitWs s).filter fun k => k ≠ ""

/-- Tier 1 of `match_rows`: `df[name_series == name]` (exact, case-sensitive
equality of the stringified `Name` against the trimmed requested name). -/
def exactMatches (df : List Row) (name : String) : List Row :=
  df.filter fun r => r.name = name

/-- Tier 2 of `match_rows`:
`df[name_series.str.contains(name, case=False, na=False)]`. -/
def containsMatches (df : List Row) (name : String) : List Row :=
  df.filter fun r => containsCI r.name name

/-- Tier 3 of `match_rows`: the keyword-AND mask — every whitespace keyword
of `name` must occur (case-insensitively) in the row's `Name`.  With no
keywords the mask stays all-`True`, exactly as the Python `pd.Series(True)`
seed. -/
def kwMatches (df : List Row) (name : String) : List Row :=
  df.filter fun r => (splitKw name).all fun kw => decide (containsCI r.name kw)

/-- `match_rows(df, source_name)`: trim the requested name; if it is empty or
the table is empty return the empty slice `df.iloc[0:0]`; otherwise return the
first non-empty tier among exact, case-insensitive containment and
keyword-AND. -/
def match_rows (df : List Row) (source_name : String) : List Row :=
  let name := stripStr source_name
  if name = "" ∨ df = [] then []
  else
    let ex := exactMatches df name
    if ex = [] then
      let co := containsMatches df name
      if co = [] then kwMatches df name
      else co
    else ex

/-- `(agg or "LAST").upper().strip()` — the aggregation-mode normalisation. -/
def normAgg (s : String) : String :=
  stripStr (upperStr (if s = "" then "LAST" else s))

/-- The survivors of the `pd.to_numeric` coercion plus
`dropna(subset=[COL_VALUE, COL_TIME])`, as (timestamp, value) pairs in row
order. -/
def dropna (df : List Row) : List (ℤ × ℚ) :=
  df.filterMap fun r =>
    match r.time, r.value with
    | some t, some v => some (t, v)
    | _, _ => none

/-- The ascending-by-timestamp order used by `df2.sort_values(COL_TIME)`. -/
def timeLe (a b : ℤ × ℚ) : Prop := a.1 ≤ b.1

instance : DecidableRel timeLe := fun a b =>
  inferInstanceAs (Decidable (a.1 ≤ b.1))

instance : IsTotal (ℤ × ℚ) timeLe := ⟨fun a b => le_total a.1 b.1⟩

instance : IsTrans (ℤ × ℚ) timeLe := ⟨fun _ _ _ h1 h2 => le_trans h1 h2⟩

/-- Stable ascending sort by timestamp, modelling `df2.sort_values(COL_TIME)`. -/
def sortByTime (l : List (ℤ × ℚ)) : List (ℤ × ℚ) :=
  List.insertionSort timeLe l

/-- `Series.max()` on a (NaN-free) numeric series: `none` on an empty series,
otherwise the maximum. -/
def seriesMax : List ℚ → Option ℚ
  | [] => none
  | v :: vs => some (vs.foldl max v)

/-- `Series.min()` on a (NaN-free) numeric series. -/
def seriesMin : List ℚ → Option ℚ
  | [] => none
  | v :: vs => some (vs.foldl min v)

/-- `agg_values(df, agg)`: `None` on an empty frame; coerce values, drop rows
with missing value or timestamp, `None` if nothing survives; otherwise
dispatch on the normalised mode, with both the explicit `"LAST"` branch and
the fall-through for unrecognised modes taking the chronologically last
surviving value after the stable ascending sort (`df2.iloc[-1]`). -/
def agg_values (df : List Row) (agg : String) : Option ℚ :=
  if df = [] then none
  else
    let a := normAgg agg
    let df2 := dropna df
    if df2 = [] then none
    else
      if a = "LAST" then some ((sortByTime df2).getLastD (0, 0)).2
      else if a = "AVG" then some ((df2.map Prod.snd).sum / (df2.length : ℚ))
      else if a = "MAX" then seriesMax (df2.map Prod.snd)
      else if a = "MIN" then seriesMin (df2.map Prod.snd)
      else if a = "SUM" then some (df2.map Prod.snd).sum
      else some ((sortByTime df2).getLastD (0, 0)).2

/-- Worker for `pd.unique`: keep the first occurrence of each element,
tracking what has already been seen. -/
def uniqueAux : List String → List String → List String
  | [], _ => []
  | a :: l, seen =>
    if a ∈ seen then uniqueAux l seen else a :: uniqueAux l (a :: seen)

/-- `pd.unique` order: first occurrence of each name, in input order. -/
def uniqueFirst (l : List String) : List String := uniqueAux l []

/-- `sum(1 for k in kws if k.lower() in n_low)` — the keyword-hit score of a
candidate name. -/
def hitScore (kws : List String) (n : String) : ℕ :=
  (kws.filter fun k => decide (containsCI n k)).length

/-- Code-point lexicographic `≤` on character data — Python's string
comparison, used by the sort key `(-score, name)`. -/
def charsLe : List Char → List Char → Bool
  | [], _ => true
  | _ :: _, [] => false
  | a :: as, b :: bs =>
    if a < b then true else if b < a then false else charsLe as bs

/-- Python's `s1 <= s2` on strings. -/
def pyStrLe (a b : String) : Prop := charsLe a.data b.data = true

instance (a b : String) : Decidable (pyStrLe a b) :=
  inferInstanceAs (Decidable (_ = true))

/-- Python's strict `s1 < s2` on strings. -/
def pyStrLt (a b : String) : Prop := pyStrLe a b ∧ a ≠ b

/-- The order induced by the Python sort key `(-score, name)`: higher score
first, ties in ascending lexical name order. -/
def hitLE (a b : ℕ × String) : Prop :=
  b.1 < a.1 ∨ (a.1 = b.1 ∧ pyStrLe a.2 b.2)

instance : DecidableRel hitLE := fun a b =>
  inferInstanceAs (Decidable (b.1 < a.1 ∨ (a.1 = b.1 ∧ pyStrLe a.2 b.2)))

/-- `miss_candidates(df_win, src, topk)`: empty results for an empty window,
an empty trimmed `src`, or no keywords; otherwise score the distinct `Name`
values, keep positive scores, sort by `(-score, name)` and truncate to
`topk`. -/
def miss_candidates (df_win : List Row) (src : String) (topk : ℕ) : List String :=
  if df_win = [] then []
  else
    let s := stripStr src
    if s = "" then []
    else
      let candidates := uniqueFirst (df_win.map Row.name)
      let kws := splitKw s
      if kws = [] then []
      else
        let hits := candidates.filterMap fun n =>
          let score := hitScore kws n
          if 0 < score then some (score, n) else none
        ((List.insertionSort hitLE hits).take topk).map Prod.snd

/-- One merged range of `ws.merged_cells.ranges`, by its bounding rows and
columns. -/
structure CellRange where
  min_row : ℕ
  min_col : ℕ
  max_row : ℕ
  max_col : ℕ
deriving DecidableEq

/-- `addr in range` for a parsed `(row, col)` address. -/
def memRange (p : ℕ × ℕ) (r : CellRange) : Prop :=
  r.min_row ≤ p.1 ∧ p.1 ≤ r.max_row ∧ r.min_col ≤ p.2 ∧ p.2 ≤ r.max_col

instance (p : ℕ × ℕ) (r : CellRange) : Decidable (memRange p r) :=
  inferInstanceAs (Decidable (_ ∧ _ ∧ _ ∧ _))

/-- The top-left anchor `(r.min_row, r.min_col)` of a merged range, the cell
`ws.cell(row=r.min_row, column=r.min_col)` targeted by the redirect. -/
def anchor (r : CellRange) : ℕ × ℕ := (r.min_row, r.min_col)

/-- One worksheet cell: its stored value and whether openpyxl materializes
this address as a read-only `MergedCell` (a non-anchor member of a merged
range in a well-formed workbook). -/
structure Cell (α : Type) where
  value : Option α
  merged : Bool

/-- A worksheet: the cell grid addressed by `(row, col)` and the merged
ranges. -/
@[ext]
structure Ws (α : Type) where
  cells : ℕ × ℕ → Cell α
  ranges : List CellRange

/-- `ws.cell(row, column).value = v`: physically store `v` at one address,
leaving every other address (and every merged flag) untouched. -/
def setCell {α : Type} (ws : Ws α) (p : ℕ × ℕ) (v : α) : Ws α :=
  { ws with
    cells := fun q => if q = p then { ws.cells p with value := some v } else ws.cells q }

/-- `_safe_write_cell(ws, addr, value)`: write directly unless the address
materializes as a `MergedCell`; in that case redirect to the anchor of the
first merged range containing the address, and if no range contains it,
return with no write at all.  The Python function returns `None` on every
path; the worksheet state is its only observable effect, so the model
returns just the new worksheet. -/
def safe_write_cell {α : Type} (ws : Ws α) (addr : ℕ × ℕ) (v : α) : Ws α :=
  if (ws.cells addr).merged then
    match ws.ranges.find? (fun r => decide (memRange addr r)) with
    | some r => setCell ws (anchor r) v
    | none => ws
  else setCell ws addr v

/-! Concrete data used by witnesses and counterexamples. -/

/-- A row whose `Name` carries surrounding whitespace (as `match_rows` can
receive it when the table was not produced by `read_sources`). -/
def rowPadded : Row := ⟨some 1, " Pump ", some 2⟩

/-- Two rows sharing one timestamp but with different values. -/
def rowT1 : Row := ⟨some 0, "a", some 1⟩

/-- Second row of the equal-timestamp pair. -/
def rowT2 : Row := ⟨some 0, "a", some 2⟩

/-- Scenario rows: two `Pump A Flow` measurements ten minutes apart. -/
def rowPumpEarly : Row := ⟨some 600, "Pump A Flow", some 12⟩

/-- Later `Pump A Flow` measurement. -/
def rowPumpLate : Row := ⟨some 610, "Pump A Flow", some 13⟩

/-- A well-formed worksheet: one 2×2 merged region anchored at `(1,1)`, the
three non-anchor members materialized as `MergedCell`s, plus a free cell at
`(3,3)`. -/
def wsMerged : Ws ℚ :=
  { cells := fun p =>
      if p = (1, 1) then ⟨some 5, false⟩
      else if p = (1, 2) ∨ p = (2, 1) ∨ p = (2, 2) then ⟨none, true⟩
      else ⟨none, false⟩,
    ranges := [⟨1, 1, 2, 2⟩] }

/-- A corrupted worksheet: address `(1,1)` materializes as a `MergedCell`
but the merged-range list is empty, so no containing region exists; `(2,2)`
is an ordinary cell already holding `9`. -/
def wsCorrupt : Ws ℚ :=
  { cells := fun p =>
      if p = (1, 1) then ⟨some 5, true⟩
      else if p = (2, 2) then ⟨some 9, false⟩
      else ⟨none, false⟩,
    ranges := [] }

/-! Helper lemmas about the resolver tiers. -/

lemma mem_exactMatches {df : List Row} {n : String} {r : Row} :
    r ∈ exactMatches df n ↔ r ∈ df ∧ r.name = n := by
  simp [exactMatches, List.mem_filter]

lemma exactMatches_ne_nil {df : List Row} {n : String} {r : Row}
    (hr : r ∈ df) (hn : r.name = n) : exactMatches df n ≠ [] := by
  intro h
  have hmem := mem_exactMatches.mpr ⟨hr, hn⟩
  rw [h] at hmem
  cases hmem

lemma match_rows_cascade (df : List Row) (s : String) (h : stripStr s ≠ "") :
    match_rows df s =
      if exactMatches df (stripStr s) = [] then
        if containsMatches df (stripStr s) = [] then kwMatches df (stripStr s)
        else containsMatches df (stripStr s)
      else exactMatches df (stripStr s) := by
  by_cases hdf : df = []
  · subst hdf
    simp [match_rows, exactMatches, containsMatches, kwMatches]
  · simp only [match_rows]
    rw [if_neg (by simp [h, hdf])]

/-- C1: tier priority law — for a sourceName with non-empty trimmed form,
if some row's name equals the trimmed sourceName exactly then `match_rows`
returns exactly the exact-match subset (the substring and keyword tiers
contribute nothing), and in general the result is the first non-empty tier
among exact, case-insensitive substring, and keyword-AND. -/
theorem match_rows_tier_priority (df : List Row) (s : String)
    (h : stripStr s ≠ "") :
    ((∃ r ∈ df, r.name = stripStr s) →
      match_rows df s = exactMatches df (stripStr s)) ∧
    match_rows df s =
      (if exactMatches df (stripStr s) = [] then
        if containsMatches df (stripStr s) = [] then kwMatches df (stripStr s)
        else containsMatches df (stripStr s)
      else exactMatches df (stripStr s)) := by
  refine ⟨?_, match_rows_cascade df s h⟩
  rintro ⟨r, hr, hn⟩
  rw [match_rows_cascade df s h, if_neg (exactMatches_ne_nil hr hn)]

/-- Witness for C1: a concrete table with an exact-case match. -/
theorem match_rows_tier_priority_witness :
    match_rows [rowPumpEarly, rowPadded] "Pump A Flow " =
      exactMatches [rowPumpEarly, rowPadded] (stripStr "Pump A Flow ") :=
  (match_rows_tier_priority [rowPumpEarly, rowPadded] "Pump A Flow "
    (by decide)).1 ⟨rowPumpEarly, by decide, by decide⟩

/-- C9: for an empty or all-whitespace sourceName (or an empty table),
`match_rows` returns the empty subset; in particular the keyword-AND tier
never returns the whole table for an all-whitespace sourceName. -/
theorem match_rows_degenerate (df : List Row) (s : String)
    (h : stripStr s = "" ∨ df = []) :
    match_rows df s = [] := by
  simp only [match_rows]
  rw [if_pos h]

/-- Witness for C9: an all-whitespace sourceName against a non-empty table. -/
theorem match_rows_degenerate_witness :
    match_rows [rowPumpEarly] "   " = [] :=
  match_rows_degenerate [rowPumpEarly] "   " (Or.inl (by decide))

/-- Counterexample to C2 as stated: the resolver does not trim the row's own
name, so the row `" Pump "` — whose trimmed name equals the trimmed
sourceName `"Pump"` — is NOT in the exact-match tier's result; it is picked
up by the substring tier instead. -/
theorem exact_tier_misses_padded_name :
    stripStr rowPadded.name = stripStr "Pump" ∧
    exactMatches [rowPadded] (stripStr "Pump") = [] ∧
    match_rows [rowPadded] "Pump" = containsMatches [rowPadded] (stripStr "Pump") ∧
    containsMatches [rowPadded] (stripStr "Pump") = [rowPadded] := by
  decide

/-- C2 amended: a row is in the exact-match tier iff its (untrimmed,
stringified) name equals the trimmed sourceName; when every table name is
already trimmed — as `read_sources` guarantees in the pipeline — this
coincides with equality after both sides are trimmed. -/
theorem exactMatches_membership (df : List Row) (s : String) (r : Row) :
    (r ∈ exactMatches df (stripStr s) ↔ r ∈ df ∧ r.name = stripStr s) ∧
    ((∀ x ∈ df, stripStr x.name = x.name) →
      (r ∈ exactMatches df (stripStr s) ↔
        r ∈ df ∧ stripStr r.name = stripStr s)) := by
  refine ⟨mem_exactMatches, fun hall => ?_⟩
  rw [mem_exactMatches]
  constructor
  · rintro ⟨hr, hn⟩
    refine ⟨hr, ?_⟩
    rw [hall r hr, hn]
  · rintro ⟨hr, hn⟩
    refine ⟨hr, ?_⟩
    rw [← hall r hr]
    exact hn

/-- Witness for the amended C2 at a concrete trimmed table. -/
theorem exactMatches_membership_witness :
    rowPumpEarly ∈ exactMatches [rowPumpEarly] (stripStr "Pump A Flow") :=
  ((exactMatches_membership [rowPumpEarly] "Pump A Flow" rowPumpEarly).2
    (by decide)).mpr ⟨by decide, by decide⟩

/-! Helper lemmas about the aggregator. -/

lemma agg_values_eval (df : List Row) (m : String) :
    agg_values df m =
      if df = [] then none
      else if dropna df = [] then none
      else if normAgg m = "LAST" then
        some ((sortByTime (dropna df)).getLastD (0, 0)).2
      else if normAgg m = "AVG" then
        some (((dropna df).map Prod.snd).sum / (((dropna df).length : ℚ)))
      else if normAgg m = "MAX" then seriesMax ((dropna df).map Prod.snd)
      else if normAgg m = "MIN" then seriesMin ((dropna df).map Prod.snd)
      else if normAgg m = "SUM" then some ((dropna df).map Prod.snd).sum
      else some ((sortByTime (dropna df)).getLastD (0, 0)).2 := rfl

lemma agg_congr_norm (df : List Row) {s t : String} (h : normAgg s = normAgg t) :
    agg_values df s = agg_values df t := by
  rw [agg_values_eval, agg_values_eval, h]

lemma sortByTime_perm (l : List (ℤ × ℚ)) : (sortByTime l).Perm l :=
  List.perm_insertionSort _ _

lemma sortByTime_sorted (l : List (ℤ × ℚ)) : (sortByTime l).Sorted timeLe :=
  List.sorted_insertionSort _ _

lemma sorted_le_getLast? :
    ∀ (l : List (ℤ × ℚ)), l.Sorted timeLe → ∀ x ∈ l, ∀ y, l.getLast? = some y →
      x.1 ≤ y.1
  | [], _, x, hx, _, _ => absurd hx (List.not_mem_nil x)
  | [a], _, x, hx, y, hy => by
      have hxa : x = a := by simpa using hx
      have hya : a = y := by simpa using hy
      simp [hxa, ← hya]
  | a :: b :: t, hs, x, hx, y, hy => by
      have hy' : (b :: t).getLast? = some y := by
        simpa [List.getLast?_cons_cons] using hy
      have hmem : y ∈ b :: t := List.mem_of_getLast?_eq_some hy'
      rcases List.mem_cons.mp hx with hxa | hxt
      · have hrel := (List.sorted_cons.mp hs).1 y hmem
        rw [hxa]
        exact hrel
      · exact sorted_le_getLast? (b :: t) (List.sorted_cons.mp hs).2 x hxt y hy'

lemma sortByTime_ne_nil {l : List (ℤ × ℚ)} (h : l ≠ []) : sortByTime l ≠ [] := by
  intro hcon
  exact h ((hcon ▸ sortByTime_perm l).symm.eq_nil)

lemma agg_last_eq (df : List Row) :
    agg_values df "LAST" = ((sortByTime (dropna df)).getLast?).map Prod.snd := by
  rw [agg_values_eval]
  have hnorm : normAgg "LAST" = "LAST" := by decide
  by_cases h1 : df = []
  · subst h1
    simp [dropna, sortByTime, List.insertionSort]
  · rw [if_neg h1]
    by_cases h2 : dropna df = []
    · rw [if_pos h2, h2]
      simp [sortByTime, List.insertionSort]
    · rw [if_neg h2, hnorm, if_pos rfl,
        List.getLast?_eq_getLast _ (sortByTime_ne_nil h2)]
      simp [List.getLastD_eq_getLast?, List.getLast?_eq_getLast _ (sortByTime_ne_nil h2)]

lemma agg_last_max (df : List Row) (v : ℚ) (h : agg_values df "LAST" = some v) :
    ∃ p ∈ dropna df, p.2 = v ∧ ∀ q ∈ dropna df, q.1 ≤ p.1 := by
  rw [agg_last_eq] at h
  obtain ⟨p, hp, hv⟩ := Option.map_eq_some'.mp h
  have hin : p ∈ dropna df :=
    (sortByTime_perm _).mem_iff.mp (List.mem_of_getLast?_eq_some hp)
  refine ⟨p, hin, hv, fun q hq => ?_⟩
  exact sorted_le_getLast? _ (sortByTime_sorted _) q
    ((sortByTime_perm _).mem_iff.mpr hq) p hp

lemma agg_none_iff (df : List Row) (m : String) :
    agg_values df m = none ↔ dropna df = [] := by
  rw [agg_values_eval]
  by_cases h1 : df = []
  · subst h1
    simp [dropna]
  · rw [if_neg h1]
    by_cases h2 : dropna df = []
    · simp [h2]
    · obtain ⟨p, ps, hd⟩ : ∃ p ps, dropna df = p :: ps := by
        rcases hdf : dropna df with _ | ⟨p, ps⟩
        · exact absurd hdf h2
        · exact ⟨p, ps, rfl⟩
      constructor
      · intro hc
        exfalso
        rw [hd] at hc
        revert hc
        split_ifs <;> simp_all [seriesMax, seriesMin]
      · intro hf
        exact absurd hf h2

/-- C5: `agg_values` returns the distinct absent sentinel (`none`, never `0`
or a NaN stand-in) exactly when the input subset is empty or every row is
dropped by numeric coercion / missing-timestamp removal, for every mode. -/
theorem agg_values_absent_iff (df : List Row) (m : String) :
    agg_values df m = none ↔ dropna df = [] :=
  agg_none_iff df m

/-- Witness for C5: absent on an empty table, and absent when all rows drop
(missing value or missing timestamp). -/
theorem agg_values_absent_iff_witness :
    agg_values [] "AVG" = none ∧
    agg_values [⟨none, "x", some 3⟩, ⟨some 1, "y", none⟩] "SUM" = none :=
  ⟨(agg_values_absent_iff [] "AVG").mpr rfl,
   (agg_values_absent_iff [⟨none, "x", some 3⟩, ⟨some 1, "y", none⟩] "SUM").mpr rfl⟩

/-- C6: the mode selector is case-insensitive, a missing (empty) or
unrecognised mode behaves exactly as `LAST`, and under `LAST` the result is
the value of the chronologically last surviving record after the stable
ascending sort — a record attaining the maximal surviving timestamp. -/
theorem agg_values_mode_selector (df : List Row) (s t : String) :
    (s ≠ "" → t ≠ "" → upperStr s = upperStr t →
      agg_values df s = agg_values df t) ∧
    agg_values df "" = agg_values df "LAST" ∧
    (normAgg s ∉ (["LAST", "AVG", "MAX", "MIN", "SUM"] : List String) →
      agg_values df s = agg_values df "LAST") ∧
    agg_values df "LAST" = ((sortByTime (dropna df)).getLast?).map Prod.snd ∧
    (∀ v, agg_values df "LAST" = some v →
      ∃ p ∈ dropna df, p.2 = v ∧ ∀ q ∈ dropna df, q.1 ≤ p.1) := by
  refine ⟨?_, agg_congr_norm df (by decide), ?_, agg_last_eq df, agg_last_max df⟩
  · intro hs ht hst
    apply agg_congr_norm
    simp [normAgg, hs, ht, hst]
  · intro h
    simp only [List.mem_cons, List.not_mem_nil, or_false, not_or] at h
    obtain ⟨h1, h2, h3, h4, h5⟩ := h
    have hL : normAgg "LAST" = "LAST" := by decide
    rw [agg_values_eval, agg_values_eval, hL]
    by_cases hd1 : df = []
    · simp [hd1]
    · rw [if_neg hd1, if_neg hd1]
      by_cases hd2 : dropna df = []
      · simp [hd2]
      · rw [if_neg hd2, if_neg hd2, if_pos rfl, if_neg h1, if_neg h2,
          if_neg h3, if_neg h4, if_neg h5]

/-- Witness for C6: lowercase mode, empty mode, and bogus mode on a concrete
table, plus the `LAST` maximality at a concrete value. -/
theorem agg_values_mode_selector_witness :
    agg_values [rowPumpEarly, rowPumpLate] "last" =
      agg_values [rowPumpEarly, rowPumpLate] "LAST" ∧
    agg_values [rowPumpEarly, rowPumpLate] "" =
      agg_values [rowPumpEarly, rowPumpLate] "LAST" ∧
    agg_values [rowPumpEarly, rowPumpLate] "bogus" =
      agg_values [rowPumpEarly, rowPumpLate] "LAST" ∧
    ∃ p ∈ dropna [rowPumpEarly, rowPumpLate], p.2 = 13 ∧
      ∀ q ∈ dropna [rowPumpEarly, rowPumpLate], q.1 ≤ p.1 := by
  have h := agg_values_mode_selector [rowPumpEarly, rowPumpLate] "last" "LAST"
  have hb := agg_values_mode_selector [rowPumpEarly, rowPumpLate] "bogus" "LAST"
  refine ⟨h.1 (by decide) (by decide) (by decide), h.2.1,
    hb.2.2.1 (by decide), h.2.2.2.2 13 ?_⟩
  rw [h.2.2.2.1]
  decide

/-! Permutation invariance of the per-mode aggregations. -/

lemma foldl_max_mem (a : ℚ) : ∀ (l : List ℚ), l.foldl max a ∈ a :: l
  | [] => by simp
  | b :: t => by
      rw [List.foldl_cons]
      rcases List.mem_cons.mp (foldl_max_mem (max a b) t) with h | h
      · rw [h]
        rcases max_choice a b with hm | hm <;> simp [hm]
      · simp [h]

lemma le_foldl_max (a : ℚ) : ∀ (l : List ℚ) (x : ℚ), x ∈ a :: l → x ≤ l.foldl max a
  | [], x, hx => by
      have hxa : x = a := by simpa using hx
      simp [hxa]
  | b :: t, x, hx => by
      rw [List.foldl_cons]
      rcases List.mem_cons.mp hx with h | h
      · exact le_trans (h ▸ le_max_left a b)
          (le_foldl_max (max a b) t _ (List.mem_cons_self _ _))
      · rcases List.mem_cons.mp h with h2 | h2
        · exact le_trans (h2 ▸ le_max_right a b)
            (le_foldl_max (max a b) t _ (List.mem_cons_self _ _))
        · exact le_foldl_max (max a b) t x (List.mem_cons_of_mem _ h2)

lemma foldl_min_mem (a : ℚ) : ∀ (l : List ℚ), l.foldl min a ∈ a :: l
  | [] => by simp
  | b :: t => by
      rw [List.foldl_cons]
      rcases List.mem_cons.mp (foldl_min_mem (min a b) t) with h | h
      · rw [h]
        rcases min_choice a b with hm | hm <;> simp [hm]
      · simp [h]

lemma foldl_min_le (a : ℚ) : ∀ (l : List ℚ) (x : ℚ), x ∈ a :: l → l.foldl min a ≤ x
  | [], x, hx => by
      have hxa : x = a := by simpa using hx
      simp [hxa]
  | b :: t, x, hx => by
      rw [List.foldl_cons]
      rcases List.mem_cons.mp hx with h | h
      · exact le_trans (foldl_min_le (min a b) t _ (List.mem_cons_self _ _))
          (h ▸ min_le_left a b)
      · rcases List.mem_cons.mp h with h2 | h2
        · exact le_trans (foldl_min_le (min a b) t _ (List.mem_cons_self _ _))
            (h2 ▸ min_le_right a b)
        · exact foldl_min_le (min a b) t x (List.mem_cons_of_mem _ h2)

lemma seriesMax_perm {l1 l2 : List ℚ} (h : l1.Perm l2) :
    seriesMax l1 = seriesMax l2 := by
  cases hl1 : l1 with
  | nil =>
    rw [hl1] at h
    rw [← h.nil_eq]
  | cons v vs =>
    rw [hl1] at h
    cases hl2 : l2 with
    | nil =>
      rw [hl2] at h
      exact absurd h.eq_nil (List.cons_ne_nil v vs)
    | cons w ws =>
      rw [hl2] at h
      have hub1 := le_foldl_max v vs
      have hub2 := le_foldl_max w ws
      have hm1 := foldl_max_mem v vs
      have hm2 := foldl_max_mem w ws
      have hle1 : vs.foldl max v ≤ ws.foldl max w := hub2 _ (h.mem_iff.mp hm1)
      have hle2 : ws.foldl max w ≤ vs.foldl max v := hub1 _ (h.mem_iff.mpr hm2)
      simp [seriesMax, le_antisymm hle1 hle2]

lemma seriesMin_perm {l1 l2 : List ℚ} (h : l1.Perm l2) :
    seriesMin l1 = seriesMin l2 := by
  cases hl1 : l1 with
  | nil =>
    rw [hl1] at h
    rw [← h.nil_eq]
  | cons v vs =>
    rw [hl1] at h
    cases hl2 : l2 with
    | nil =>
      rw [hl2] at h
      exact absurd h.eq_nil (List.cons_ne_nil v vs)
    | cons w ws =>
      rw [hl2] at h
      have hlb1 := foldl_min_le v vs
      have hlb2 := foldl_min_le w ws
      have hm1 := foldl_min_mem v vs
      have hm2 := foldl_min_mem w ws
      have hle1 : ws.foldl min w ≤ vs.foldl min v := hlb2 _ (h.mem_iff.mp hm1)
      have hle2 : vs.foldl min v ≤ ws.foldl min w := hlb1 _ (h.mem_iff.mpr hm2)
      simp [seriesMin, le_antisymm hle2 hle1]

/-- Counterexample to C3 as stated: two tables that are permutations of each
other (same timestamps and values; both rows share the maximal timestamp)
on which `LAST` aggregation returns different values — the `LAST` result
does depend on the input ordering when timestamps tie. -/
theorem agg_last_order_dependent :
    ([rowT1, rowT2] : List Row).Perm [rowT2, rowT1] ∧
    agg_values [rowT1, rowT2] "LAST" = some 2 ∧
    agg_values [rowT2, rowT1] "LAST" = some 1 := by
  refine ⟨List.Perm.swap _ _ _, ?_, ?_⟩ <;> decide

/-- C3 amended: `agg_values` is invariant under permutation of the rows for
the modes `AVG`, `MAX`, `MIN`, `SUM`; for `LAST` it is permutation-invariant
provided all surviving rows attaining the maximal timestamp carry the same
value (with a genuine tie of distinct values, the stable sort makes the
last-in-input row win, so input order matters). -/
theorem agg_values_perm (df1 df2 : List Row) (m : String) (hp : df1.Perm df2) :
    (normAgg m ∈ (["AVG", "MAX", "MIN", "SUM"] : List String) →
      agg_values df1 m = agg_values df2 m) ∧
    ((∀ p ∈ dropna df1, (∀ x ∈ dropna df1, x.1 ≤ p.1) →
        ∀ q ∈ dropna df1, (∀ x ∈ dropna df1, x.1 ≤ q.1) → p.2 = q.2) →
      agg_values df1 "LAST" = agg_values df2 "LAST") := by
  have hd : (dropna df1).Perm (dropna df2) := hp.filterMap _
  have hnil : df1 = [] ↔ df2 = [] := by
    constructor
    · intro h
      rw [h] at hp
      exact hp.nil_eq.symm
    · intro h
      rw [h] at hp
      exact hp.symm.nil_eq.symm
  have hdnil : dropna df1 = [] ↔ dropna df2 = [] := by
    constructor
    · intro h
      rw [h] at hd
      exact hd.nil_eq.symm
    · intro h
      rw [h] at hd
      exact hd.symm.nil_eq.symm
  constructor
  · intro hm
    rw [agg_values_eval, agg_values_eval]
    by_cases h1 : df1 = []
    · rw [if_pos h1, if_pos (hnil.mp h1)]
    · have h2 : df2 ≠ [] := fun h => h1 (hnil.mpr h)
      rw [if_neg h1, if_neg h2]
      by_cases hd1 : dropna df1 = []
      · rw [if_pos hd1, if_pos (hdnil.mp hd1)]
      · have hd2 : dropna df2 ≠ [] := fun h => hd1 (hdnil.mpr h)
        rw [if_neg hd1, if_neg hd2]
        have hsum : ((dropna df1).map Prod.snd).sum = ((dropna df2).map Prod.snd).sum :=
          (hd.map Prod.snd).sum_eq
        have hlen : (dropna df1).length = (dropna df2).length := hd.length_eq
        rcases (by simpa using hm :
            normAgg m = "AVG" ∨ normAgg m = "MAX" ∨ normAgg m = "MIN" ∨
              normAgg m = "SUM") with h | h | h | h <;> rw [h]
        · rw [if_neg (by decide : ¬ (("AVG" : String) = "LAST")), if_pos rfl,
            if_neg (by decide : ¬ (("AVG" : String) = "LAST")), if_pos rfl,
            hsum, hlen]
        · rw [if_neg (by decide : ¬ (("MAX" : String) = "LAST")),
            if_neg (by decide : ¬ (("MAX" : String) = "AVG")), if_pos rfl,
            if_neg (by decide : ¬ (("MAX" : String) = "LAST")),
            if_neg (by decide : ¬ (("MAX" : String) = "AVG")), if_pos rfl]
          exact seriesMax_perm (hd.map Prod.snd)
        · rw [if_neg (by decide : ¬ (("MIN" : String) = "LAST")),
            if_neg (by decide : ¬ (("MIN" : String) = "AVG")),
            if_neg (by decide : ¬ (("MIN" : String) = "MAX")), if_pos rfl,
            if_neg (by decide : ¬ (("MIN" : String) = "LAST")),
            if_neg (by decide : ¬ (("MIN" : String) = "AVG")),
            if_neg (by decide : ¬ (("MIN" : String) = "MAX")), if_pos rfl]
          exact seriesMin_perm (hd.map Prod.snd)
        · rw [if_neg (by decide : ¬ (("SUM" : String) = "LAST")),
            if_neg (by decide : ¬ (("SUM" : String) = "AVG")),
            if_neg (by decide : ¬ (("SUM" : String) = "MAX")),
            if_neg (by decide : ¬ (("SUM" : String) = "MIN")), if_pos rfl,
            if_neg (by decide : ¬ (("SUM" : String) = "LAST")),
            if_neg (by decide : ¬ (("SUM" : String) = "AVG")),
            if_neg (by decide : ¬ (("SUM" : String) = "MAX")),
            if_neg (by decide : ¬ (("SUM" : String) = "MIN")), if_pos rfl,
            hsum]
  · intro htie
    by_cases hd1 : dropna df1 = []
    · rw [(agg_none_iff df1 "LAST").mpr hd1, (agg_none_iff df2 "LAST").mpr (hdnil.mp hd1)]
    · have hd2 : dropna df2 ≠ [] := fun h => hd1 (hdnil.mpr h)
      have h1 : ∃ v, agg_values df1 "LAST" = some v := by
        rcases hvo : agg_values df1 "LAST" with _ | v
        · exact absurd ((agg_none_iff df1 "LAST").mp hvo) hd1
        · exact ⟨v, rfl⟩
      have h2 : ∃ v, agg_values df2 "LAST" = some v := by
        rcases hvo : agg_values df2 "LAST" with _ | v
        · exact absurd ((agg_none_iff df2 "LAST").mp hvo) hd2
        · exact ⟨v, rfl⟩
      obtain ⟨v1, hv1⟩ := h1
      obtain ⟨v2, hv2⟩ := h2
      obtain ⟨p1, hp1, hpv1, hmax1⟩ := agg_last_max df1 v1 hv1
      obtain ⟨p2, hp2, hpv2, hmax2⟩ := agg_last_max df2 v2 hv2
      have hp2' : p2 ∈ dropna df1 := hd.mem_iff.mpr hp2
      have hmax2' : ∀ x ∈ dropna df1, x.1 ≤ p2.1 := fun x hx =>
        hmax2 x (hd.mem_iff.mp hx)
      have hvv := htie p1 hp1 hmax1 p2 hp2' hmax2'
      rw [hv1, hv2, ← hpv1, ← hpv2, hvv]

/-- Witness for the amended C3: a two-row table and its swap, for `AVG` and
for `LAST` with a unique maximal timestamp. -/
theorem agg_values_perm_witness :
    agg_values [rowPumpEarly, rowPumpLate] "AVG" =
      agg_values [rowPumpLate, rowPumpEarly] "AVG" ∧
    agg_values [rowPumpEarly, rowPumpLate] "LAST" =
      agg_values [rowPumpLate, rowPumpEarly] "LAST" := by
  have h := agg_values_perm [rowPumpEarly, rowPumpLate] [rowPumpLate, rowPumpEarly]
    "AVG" (List.Perm.swap _ _ _)
  have h2 := agg_values_perm [rowPumpEarly, rowPumpLate] [rowPumpLate, rowPumpEarly]
    "LAST" (List.Perm.swap _ _ _)
  exact ⟨h.1 (by decide), h2.2 (by decide)⟩

/-! Helper lemmas about the candidate ranker. -/

lemma uniqueAux_not_mem_seen :
    ∀ (l seen : List String) (x : String), x ∈ uniqueAux l seen → x ∉ seen
  | [], _, x, hx => absurd hx (List.not_mem_nil x)
  | a :: l, seen, x, hx => by
      by_cases h : a ∈ seen
      · exact uniqueAux_not_mem_seen l seen x (by simpa [uniqueAux, h] using hx)
      · intro hxs
        rcases List.mem_cons.mp (by simpa [uniqueAux, h] using hx) with rfl | hx2
        · exact h hxs
        · exact uniqueAux_not_mem_seen l (a :: seen) x hx2 (List.mem_cons_of_mem _ hxs)

lemma uniqueAux_nodup : ∀ (l seen : List String), (uniqueAux l seen).Nodup
  | [], _ => List.nodup_nil
  | a :: l, seen => by
      by_cases h : a ∈ seen
      · simpa [uniqueAux, h] using uniqueAux_nodup l seen
      · simp only [uniqueAux, if_neg h]
        refine List.Nodup.cons ?_ (uniqueAux_nodup l (a :: seen))
        intro hmem
        exact uniqueAux_not_mem_seen l (a :: seen) a hmem (List.mem_cons_self _ _)

lemma uniqueFirst_nodup (l : List String) : (uniqueFirst l).Nodup :=
  uniqueAux_nodup l []

lemma hits_map_snd (kws : List String) (cs : List String) :
    ((cs.filterMap fun n =>
        if 0 < hitScore kws n then some (hitScore kws n, n) else none).map
      Prod.snd) = cs.filter fun n => decide (0 < hitScore kws n) := by
  induction cs with
  | nil => rfl
  | cons c cs ih =>
    by_cases h : 0 < hitScore kws c <;>
      simp [List.filterMap_cons, h, ih, List.filter_cons]

lemma miss_candidates_eval (df : List Row) (src : String) (k : ℕ)
    (h1 : df ≠ []) (h2 : stripStr src ≠ "") (h3 : splitKw (stripStr src) ≠ []) :
    miss_candidates df src k =
      ((List.insertionSort hitLE ((uniqueFirst (df.map Row.name)).filterMap
        fun n => if 0 < hitScore (splitKw (stripStr src)) n then
          some (hitScore (splitKw (stripStr src)) n, n) else none)).take k).map
        Prod.snd := by
  simp only [miss_candidates]
  rw [if_neg h1, if_neg h2, if_neg h3]

lemma charsLe_total : ∀ (a b : List Char), charsLe a b = true ∨ charsLe b a = true
  | [], _ => Or.inl rfl
  | _ :: _, [] => Or.inr rfl
  | a :: as, b :: bs => by
      rcases lt_trichotomy a b with h | h | h
      · left
        simp [charsLe, h]
      · subst h
        rcases charsLe_total as bs with h2 | h2
        · left
          simp [charsLe, lt_irrefl, h2]
        · right
          simp [charsLe, lt_irrefl, h2]
      · right
        simp [charsLe, h]

lemma charsLe_trans : ∀ (a b c : List Char),
    charsLe a b = true → charsLe b c = true → charsLe a c = true
  | [], _, _, _, _ => rfl
  | _ :: _, [], _, h1, _ => by simp [charsLe] at h1
  | _ :: _, _ :: _, [], _, h2 => by simp [charsLe] at h2
  | a :: as, b :: bs, c :: cs, h1, h2 => by
      simp only [charsLe] at h1 h2 ⊢
      by_cases hab : a < b
      · by_cases hbc : b < c
        · rw [if_pos (lt_trans hab hbc)]
        · by_cases hcb : c < b
          · rw [if_neg hbc, if_pos hcb] at h2
            exact absurd h2 (by simp)
          · have hbc' : b = c := le_antisymm (not_lt.mp hcb) (not_lt.mp hbc)
            rw [if_pos (hbc' ▸ hab)]
      · by_cases hba : b < a
        · rw [if_neg hab, if_pos hba] at h1
          exact absurd h1 (by simp)
        · have hab' : a = b := le_antisymm (not_lt.mp hba) (not_lt.mp hab)
          subst hab'
          rw [if_neg hab, if_neg hba] at h1
          by_cases hac : a < c
          · rw [if_pos hac]
          · by_cases hca : c < a
            · rw [if_neg hac, if_pos hca] at h2
              exact absurd h2 (by simp)
            · rw [if_neg hac, if_neg hca] at h2 ⊢
              exact charsLe_trans as bs cs h1 h2

/-- C7: the ranker returns at most `topk` names; every returned name contains
at least one keyword of the trimmed sourceName as a case-insensitive
substring (no zero-score name); and the output is strictly ordered by
descending keyword-hit score with equal-score ties in ascending lexical
order, so the output is deterministic. -/
theorem miss_candidates_ranking (df : List Row) (src : String) (k : ℕ) :
    (miss_candidates df src k).length ≤ k ∧
    (∀ n ∈ miss_candidates df src k,
      ∃ kw ∈ splitKw (stripStr src), containsCI n kw) ∧
    List.Pairwise (fun n1 n2 =>
        hitScore (splitKw (stripStr src)) n2 < hitScore (splitKw (stripStr src)) n1 ∨
        (hitScore (splitKw (stripStr src)) n1 = hitScore (splitKw (stripStr src)) n2 ∧
          pyStrLt n1 n2))
      (miss_candidates df src k) := by
  letI : IsTotal (ℕ × String) hitLE :=
    ⟨fun a b => by
      rcases lt_trichotomy a.1 b.1 with h | h | h
      · exact Or.inr (Or.inl h)
      · rcases charsLe_total a.2.data b.2.data with h2 | h2
        · exact Or.inl (Or.inr ⟨h, h2⟩)
        · exact Or.inr (Or.inr ⟨h.symm, h2⟩)
      · exact Or.inl (Or.inl h)⟩
  letI : IsTrans (ℕ × String) hitLE :=
    ⟨fun a b c h1 h2 => by
      rcases h1 with h1 | ⟨he1, hl1⟩ <;> rcases h2 with h2 | ⟨he2, hl2⟩
      · exact Or.inl (lt_trans h2 h1)
      · exact Or.inl (he2 ▸ h1)
      · exact Or.inl (he1 ▸ h2)
      · exact Or.inr ⟨he1.trans he2, charsLe_trans _ _ _ hl1 hl2⟩⟩
  by_cases h1 : df = []
  · simp [miss_candidates, h1]
  by_cases h2 : stripStr src = ""
  · simp [miss_candidates, h1, h2]
  by_cases h3 : splitKw (stripStr src) = []
  · simp [miss_candidates, h1, h2, h3]
  rw [miss_candidates_eval df src k h1 h2 h3]
  set kws := splitKw (stripStr src) with hkws
  set cands := uniqueFirst (df.map Row.name) with hcands
  set hits := cands.filterMap fun n =>
    if 0 < hitScore kws n then some (hitScore kws n, n) else none with hhits
  set srt := List.insertionSort hitLE hits with hsrt
  have hsorted : srt.Pairwise hitLE := List.sorted_insertionSort hitLE hits
  have hperm : srt.Perm hits := List.perm_insertionSort hitLE hits
  have hmemP : ∀ p ∈ srt.take k, p.1 = hitScore kws p.2 ∧ 0 < p.1 := by
    intro p hp
    have hp3 : p ∈ hits := hperm.mem_iff.mp (List.mem_of_mem_take hp)
    obtain ⟨n, _, hfn⟩ := List.mem_filterMap.mp hp3
    by_cases h0 : 0 < hitScore kws n
    · rw [if_pos h0] at hfn
      obtain rfl := Option.some.inj hfn
      exact ⟨rfl, h0⟩
    · rw [if_neg h0] at hfn
      cases hfn
  refine ⟨?_, ?_, ?_⟩
  · rw [List.length_map, List.length_take]
    exact min_le_left _ _
  · intro n hn
    obtain ⟨p, hp, hpn⟩ := List.mem_map.mp hn
    obtain ⟨hscore, hpos⟩ := hmemP p hp
    rw [hscore] at hpos
    rw [← hpn]
    have hflt : (kws.filter fun kk => decide (containsCI p.2 kk)) ≠ [] := by
      rw [← List.length_pos]
      simpa [hitScore] using hpos
    obtain ⟨kk, hkk⟩ := List.exists_mem_of_ne_nil _ hflt
    have hkk2 := List.mem_filter.mp hkk
    exact ⟨kk, hkk2.1, of_decide_eq_true hkk2.2⟩
  · rw [List.pairwise_map]
    have hpw1 : (srt.take k).Pairwise hitLE := hsorted.sublist (List.take_sublist k srt)
    have hnodc : cands.Nodup := uniqueFirst_nodup _
    have hnodh : (hits.map Prod.snd).Nodup := by
      rw [hhits, hits_map_snd]
      exact hnodc.filter _
    have hnods2 : (srt.map Prod.snd).Nodup :=
      (hperm.map Prod.snd).nodup_iff.mpr hnodh
    have hnodtk : ((srt.take k).map Prod.snd).Nodup := by
      rw [List.map_take]
      exact ((List.map Prod.snd srt).take_sublist k).nodup hnods2
    have hne2 : (srt.take k).Pairwise fun p q => p.2 ≠ q.2 :=
      List.pairwise_map.mp hnodtk
    refine List.Pairwise.imp_of_mem ?_ (hpw1.and hne2)
    intro a b ha hb hab
    obtain ⟨hsa, _⟩ := hmemP a ha
    obtain ⟨hsb, _⟩ := hmemP b hb
    obtain ⟨hle, hne⟩ := hab
    rcases hle with hlt | ⟨heq, hle2⟩
    · left
      rw [← hsa, ← hsb]
      exact hlt
    · right
      refine ⟨?_, hle2, hne⟩
      rw [← hsa, ← hsb]
      exact heq

/-- Witness for C7: a concrete window where both names score and tie. -/
theorem miss_candidates_ranking_witness :
    (miss_candidates [⟨some 1, "b hit", some 2⟩, ⟨some 1, "a hit", some 3⟩]
      "hit" 5).length ≤ 5 ∧
    ∃ kw ∈ splitKw (stripStr "hit"), containsCI "a hit" kw := by
  have h := miss_candidates_ranking
    [⟨some 1, "b hit", some 2⟩, ⟨some 1, "a hit", some 3⟩] "hit" 5
  exact ⟨h.1, h.2.1 "a hit" (by decide)⟩

/-- C10: the ranker returns the empty sequence whenever the windowed table is
empty, the sourceName trims to the empty string, or the sourceName splits
into no whitespace keywords — without error and without consulting the
candidate names. -/
theorem miss_candidates_degenerate (df : List Row) (src : String) (k : ℕ)
    (h : df = [] ∨ stripStr src = "" ∨ splitKw (stripStr src) = []) :
    miss_candidates df src k = [] := by
  simp only [miss_candidates]
  by_cases h1 : df = []
  · rw [if_pos h1]
  · rw [if_neg h1]
    by_cases h2 : stripStr src = ""
    · rw [if_pos h2]
    · rw [if_neg h2]
      have h3 : splitKw (stripStr src) = [] := by
        rcases h with h | h | h
        · exact absurd h h1
        · exact absurd h h2
        · exact h
      rw [if_pos h3]

/-- Witness for C10: an all-whitespace sourceName against a non-empty window. -/
theorem miss_candidates_degenerate_witness :
    miss_candidates [rowPumpEarly] "   " 5 = [] :=
  miss_candidates_degenerate [rowPumpEarly] "   " 5 (Or.inr (Or.inl (by decide)))

/-! Helper lemmas about the template writer. -/

lemma setCell_value {α : Type} (ws : Ws α) (p : ℕ × ℕ) (v : α) :
    ((setCell ws p v).cells p).value = some v := by
  simp [setCell]

lemma setCell_other {α : Type} (ws : Ws α) (p q : ℕ × ℕ) (v : α) (h : q ≠ p) :
    (setCell ws p v).cells q = ws.cells q := by
  simp [setCell, h]

lemma setCell_merged {α : Type} (ws : Ws α) (p q : ℕ × ℕ) (v : α) :
    ((setCell ws p v).cells q).merged = (ws.cells q).merged := by
  by_cases h : q = p <;> simp [setCell, h]

lemma safe_write_resolves {α : Type} (ws : Ws α) (r : CellRange) (a : ℕ × ℕ)
    (v : α)
    (h : ((ws.cells a).merged = false ∧ a = anchor r) ∨
         ((ws.cells a).merged = true ∧
           ws.ranges.find? (fun r' => decide (memRange a r')) = some r)) :
    safe_write_cell ws a v = setCell ws (anchor r) v := by
  rcases h with ⟨hm, ha⟩ | ⟨hm, hf⟩
  · rw [← ha]
    simp [safe_write_cell, hm]
  · simp only [safe_write_cell, hm]
    rw [hf]
    simp

/-- C8: merged-region round-trip — writing through any member address of a
merged region stores the value at the region's top-left anchor (reading the
anchor yields it), only the anchor is physically mutated, and two successive
writes through different member addresses target the same anchor, so the
second write wins.  Each address hypothesis says how the writer locates the
region: either the address is the anchor itself (a directly writable cell)
or it materializes as a `MergedCell` and the region lookup finds `r`. -/
theorem safe_write_merged_anchor {α : Type} (ws : Ws α) (r : CellRange)
    (a1 a2 : ℕ × ℕ) (v1 v2 : α)
    (h1 : ((ws.cells a1).merged = false ∧ a1 = anchor r) ∨
          ((ws.cells a1).merged = true ∧
            ws.ranges.find? (fun r' => decide (memRange a1 r')) = some r))
    (h2 : ((ws.cells a2).merged = false ∧ a2 = anchor r) ∨
          ((ws.cells a2).merged = true ∧
            ws.ranges.find? (fun r' => decide (memRange a2 r')) = some r)) :
    (((safe_write_cell ws a1 v1).cells (anchor r)).value = some v1) ∧
    (∀ p, p ≠ anchor r → (safe_write_cell ws a1 v1).cells p = ws.cells p) ∧
    (((safe_write_cell (safe_write_cell ws a1 v1) a2 v2).cells
        (anchor r)).value = some v2) ∧
    (∀ p, p ≠ anchor r →
      (safe_write_cell (safe_write_cell ws a1 v1) a2 v2).cells p =
        ws.cells p) := by
  have e1 : safe_write_cell ws a1 v1 = setCell ws (anchor r) v1 :=
    safe_write_resolves ws r a1 v1 h1
  have h2' : (((setCell ws (anchor r) v1).cells a2).merged = false ∧
        a2 = anchor r) ∨
      (((setCell ws (anchor r) v1).cells a2).merged = true ∧
        (setCell ws (anchor r) v1).ranges.find?
          (fun r' => decide (memRange a2 r')) = some r) := by
    rcases h2 with ⟨hm, ha⟩ | ⟨hm, hf⟩
    · exact Or.inl ⟨by rw [setCell_merged]; exact hm, ha⟩
    · exact Or.inr ⟨by rw [setCell_merged]; exact hm, hf⟩
  have e2 : safe_write_cell (setCell ws (anchor r) v1) a2 v2 =
      setCell (setCell ws (anchor r) v1) (anchor r) v2 :=
    safe_write_resolves _ r a2 v2 h2'
  refine ⟨?_, ?_, ?_, ?_⟩
  · rw [e1]
    exact setCell_value ws (anchor r) v1
  · intro p hp
    rw [e1]
    exact setCell_other ws (anchor r) p v1 hp
  · rw [e1, e2]
    exact setCell_value _ (anchor r) v2
  · intro p hp
    rw [e1, e2, setCell_other _ (anchor r) p v2 hp,
      setCell_other ws (anchor r) p v1 hp]

/-- Witness for C8 on the concrete 2×2 merged region of `wsMerged`: writing
through member `(1,2)` lands on the anchor `(1,1)`; a second write through
member `(2,2)` overwrites the same anchor; the member cell itself is never
touched. -/
theorem safe_write_merged_anchor_witness :
    ((safe_write_cell wsMerged (1, 2) (7 : ℚ)).cells (1, 1)).value = some 7 ∧
    ((safe_write_cell (safe_write_cell wsMerged (1, 2) (7 : ℚ))
        (2, 2) 9).cells (1, 1)).value = some 9 ∧
    (safe_write_cell wsMerged (1, 2) (7 : ℚ)).cells (2, 2) =
      wsMerged.cells (2, 2) := by
  have h := safe_write_merged_anchor wsMerged ⟨1, 1, 2, 2⟩ (1, 2) (2, 2)
    (7 : ℚ) 9 (Or.inr ⟨by decide, by decide⟩) (Or.inr ⟨by decide, by decide⟩)
  exact ⟨h.1, h.2.2.1, h.2.1 (2, 2) (by decide)⟩

/-- C4 amended: on an address that materializes as a `MergedCell` but for
which no containing merged range exists, the write is skipped — the
worksheet is returned unchanged — but no void-write event is surfaced: the
Python function returns `None` on every path, so its only output is the
worksheet state. -/
theorem safe_write_void_skip {α : Type} (ws : Ws α) (addr : ℕ × ℕ) (v : α)
    (hm : (ws.cells addr).merged = true)
    (hf : ws.ranges.find? (fun r => decide (memRange addr r)) = none) :
    safe_write_cell ws addr v = ws := by
  simp only [safe_write_cell, hm]
  rw [hf]
  simp

/-- Witness for the amended C4 on the corrupted worksheet. -/
theorem safe_write_void_skip_witness :
    safe_write_cell wsCorrupt (1, 1) (7 : ℚ) = wsCorrupt :=
  safe_write_void_skip wsCorrupt (1, 1) 7 (by decide) (by decide)

/-- Counterexample to C4 as stated: the void write on the corrupted
worksheet returns exactly the same observable outcome as a successful
direct write (of the value already present), so the caller cannot
distinguish the two calls — no void-write event is surfaced. -/
theorem safe_write_void_indistinguishable :
    safe_write_cell wsCorrupt (1, 1) (7 : ℚ) = wsCorrupt ∧
    (wsCorrupt.cells (2, 2)).merged = false ∧
    safe_write_cell wsCorrupt (2, 2) (9 : ℚ) = wsCorrupt := by
  refine ⟨rfl, by decide, ?_⟩
  show setCell wsCorrupt (2, 2) (9 : ℚ) = wsCorrupt
  refine Ws.ext (funext fun q => ?_) rfl
  by_cases hq : q = (2, 2)
  · subst hq
    rfl
  · simp [setCell, hq]
